import Mathlib

/-!
Verification of the LVGL Pngle PNG decoder glue (`src/lv_pngle.c`).

The development is a shallow embedding of the C source.  The external Pngle
parser is modelled as an abstract oracle (`Pngle`): each `pngle_feed` call
returns an updated parser state, an `Int` result (negative means error, as the
C code checks `pngle_feed(...) < 0`), and the list of callback events the
parser fired during that feed.  The decoder's own callback bodies
(`pngle_init_cb`, `pngle_draw_cb`, `pngle_done_cb`) are translated from the
source and applied to the events.

Machine arithmetic: `int` is 32-bit two's complement, modelled as `Nat`
computations mod 2^32 reinterpreted by `toInt32`; the signedness of plain
`char` is implementation-defined in C, so it is a `Bool` parameter (`sgn`)
of the chunk-length computation. Pointers that advance through a buffer
(`ud->data`) are modelled as a base allocation (`Option (List Nat)`, `none`
being `NULL`) plus an `Int` offset.
-/

namespace LvPngle

/-- The four build-time LVGL colour depths (`LV_COLOR_DEPTH` = 32/16/8/1). -/
inductive Depth
  | d32
  | d16
  | d8
  | d1
deriving DecidableEq

/-- Spec-side table (§3 of the spec): bytes per output pixel for each format. -/
def bytes_per_pixel : Depth → Nat
  | .d32 => 4
  | .d16 => 3
  | .d8 => 2
  | .d1 => 2

/-- The bytes `pngle_draw_cb` stores for one RGBA pixel, in store order
(source lines 127-145).  `r g b a` are the `uint8_t` values `rgba[0..3]`.
The intermediate `col` values are reduced mod the C integer width they are
stored in (`uint16_t` resp. `uint8_t`). -/
def packPixel : Depth → Nat → Nat → Nat → Nat → List Nat
  | .d32, r, g, b, a => [b, g, r, a]
  | .d16, r, g, b, a =>
      let col := (((r &&& 0xf8) <<< 8) ||| ((g &&& 0xfc) <<< 3) ||| ((b &&& 0xf8) >>> 3)) % 65536
      [col &&& 0xff, col >>> 8, a]
  | .d8, r, g, b, a =>
      let col := ((r &&& 0xe0) ||| ((g &&& 0xe0) >>> 3) ||| ((b &&& 0xc0) >>> 6)) % 256
      [col, a]
  | .d1, r, g, b, a =>
      let col := ((r ||| g ||| b) &&& 0x80) % 256
      [col >>> 7, a]

/-- The `lv_pngle_data_t` user-data record plus the write pointer `ud->data`,
modelled as base allocation + offset.  `base = none` models a `NULL` data
pointer; `off` is the pointer's distance (in bytes) from the allocation
start, an `Int` because the C code moves the raw pointer both ways. -/
structure UD where
  hdrReady : Bool
  dataReady : Bool
  base : Option (List Nat)
  off : Int
deriving DecidableEq

/-- Store the byte list `bs` into `l` starting at index `i`
(stores past the end of `l` are dropped, as `List.set` is). -/
def writeBytes (l : List Nat) (i : Nat) : List Nat → List Nat
  | [] => l
  | b :: rest => writeBytes (l.set i b) (i + 1) rest

/-- Model of `pngle_init_cb` (source lines 108-112): record that the header was read. -/
def pngle_init_cb (ud : UD) : UD :=
  { ud with hdrReady := true }

/-- Model of `pngle_draw_cb` (source lines 123-146): store one packed pixel through
`ud->data` and advance the pointer.  A store through a `NULL` pointer, or at
a negative offset, is undefined behaviour in C; it is modelled as leaving
the allocation unchanged (the pointer still advances, as `ud->data++` does). -/
def pngle_draw_cb (d : Depth) (r g b a : Nat) (ud : UD) : UD :=
  let bs := packPixel d r g b a
  { ud with
    base :=
      match ud.base with
      | none => none
      | some l => some (if 0 ≤ ud.off then writeBytes l ud.off.toNat bs else l)
    off := ud.off + bs.length }

/-- Model of `pngle_done_cb` (source lines 152-165): set `data_ready` and move the
write pointer back by 4/3/2/2 times `width * height`, the per-depth constants
written in the source. -/
def pngle_done_cb (d : Depth) (w h : Nat) (ud : UD) : UD :=
  match d with
  | .d32 => { ud with dataReady := true, off := ud.off - (4 * w * h : Nat) }
  | .d16 => { ud with dataReady := true, off := ud.off - (3 * w * h : Nat) }
  | .d8 => { ud with dataReady := true, off := ud.off - (2 * w * h : Nat) }
  | .d1 => { ud with dataReady := true, off := ud.off - (2 * w * h : Nat) }

/-- Model of `lv_pngle_buffer_init` (source lines 86-100): one zeroing allocation
(`calloc`) of `n_px` times the per-depth constant 4/3/2/2. -/
def lv_pngle_buffer_init (d : Depth) (n_px : Nat) : List Nat :=
  match d with
  | .d32 => List.replicate (n_px * 4) 0
  | .d16 => List.replicate (n_px * 3) 0
  | .d8 => List.replicate (n_px * 2) 0
  | .d1 => List.replicate (n_px * 2) 0

/-- A callback event fired by the Pngle parser during one `pngle_feed` call. -/
inductive PEvent
  | initEvt (w h : Nat)
  | drawEvt (r g b a : Nat)
  | doneEvt
deriving DecidableEq

/-- Which of the three callbacks have been registered
(`pngle_set_init/draw/done_callback`).  The info path registers only the
init callback; the full decode path registers all three. -/
structure CbRegs where
  hasInit : Bool
  hasDraw : Bool
  hasDone : Bool
deriving DecidableEq

/-- The abstract Pngle parser oracle over an opaque state type `σ`:
`feed` models `pngle_feed` (negative `Int` result = parse error), returning
also the callback events fired during the call; `width`/`height` model
`pngle_get_width`/`pngle_get_height`. -/
structure Pngle (σ : Type) where
  feed : σ → List Nat → σ × Int × List PEvent
  width : σ → Nat
  height : σ → Nat

/-- Dispatch one parser event to the registered callback bodies. -/
def applyEvent (d : Depth) (regs : CbRegs) (pw ph : Nat) (ud : UD) : PEvent → UD
  | .initEvt _ _ => if regs.hasInit then pngle_init_cb ud else ud
  | .drawEvt r g b a => if regs.hasDraw then pngle_draw_cb d r g b a ud else ud
  | .doneEvt => if regs.hasDone then pngle_done_cb d pw ph ud else ud

/-- One `pngle_feed` call: run the oracle, then run every event it fired
through the registered callbacks against the current user-data record. -/
def pngleFeed (M : Pngle σ) (d : Depth) (regs : CbRegs) (p : σ) (ud : UD)
    (bs : List Nat) : σ × UD × Int :=
  let out := M.feed p bs
  (out.1, out.2.2.foldl (applyEvent d regs (M.width out.1) (M.height out.1)) ud, out.2.1)

/-- Model of `lv_res_t`. -/
inductive LvRes
  | ok
  | inv
deriving DecidableEq

/-- The descriptor closed by `pngle_decoder_close`: its `img_data` field,
a pointer modelled as allocation contents plus offset (`none` = `NULL`). -/
structure CloseDsc where
  imgData : Option (List Nat × Int)
deriving DecidableEq

/-- Model of `pngle_decoder_close` (source lines 370-377): release `img_data` when it
is non-null and clear the field.  The `Nat` counts the release calls made. -/
def pngle_decoder_close (dsc : CloseDsc) : CloseDsc × Nat :=
  match dsc.imgData with
  | some _ => (⟨none⟩, 1)
  | none => (dsc, 0)

/-- An open LVGL file: the byte contents plus the read position. -/
structure LvFile where
  data : List Nat
  pos : Nat
deriving DecidableEq

/-- Model of `lv_fs_read(f, &buf, n, &rb)` into a local `char buf[...]`: the first
`rb = min n remaining` bytes come from the file, the rest of the n-byte
window keeps the buffer's previous (uninitialized) content, modelled by the
arbitrary byte function `junk` (reduced mod 256 since the buffer holds
chars).  Returns the n bytes the C code goes on to use, and the file with
its position advanced by `rb` — the C code ignores `rb` itself. -/
def lv_fs_read (f : LvFile) (n : Nat) (junk : Nat → Nat) : List Nat × LvFile :=
  let rb := min n (f.data.length - f.pos)
  ((List.range n).map fun i =>
      if i < rb then f.data.getD (f.pos + i) 0 else junk i % 256,
   ⟨f.data, f.pos + rb⟩)

/-- Reduce mod 2^32. -/
def u32 (n : Nat) : Nat := n % 4294967296

/-- Reinterpret a value below 2^32 as a two's-complement 32-bit `int`. -/
def toInt32 (n : Nat) : Int :=
  if n < 2147483648 then (n : Int) else (n : Int) - 4294967296

/-- Integer promotion of one `char` of the read buffer: when `char` is
signed (`sgn = true`) a byte with the high bit set is sign-extended, shown
here as the low 32 bits of the promoted `int`. -/
def sextChar (sgn : Bool) (b : Nat) : Nat :=
  if sgn ∧ 128 ≤ b % 256 then b % 256 + 0xffffff00 else b % 256

/-- The `int chunk_length` computed at source line 178:
`((buf[0] << 24) | (buf[1] << 16) | (buf[2] << 8) | buf[3]) + 4`, evaluated
in 32-bit `int` arithmetic on the promoted `char` values. -/
def chunkLenInt (sgn : Bool) (b0 b1 b2 b3 : Nat) : Int :=
  toInt32 (u32 ((u32 (sextChar sgn b0 <<< 24) ||| u32 (sextChar sgn b1 <<< 16) |||
      u32 (sextChar sgn b2 <<< 8) ||| sextChar sgn b3) + 4))

/-- The big-endian unsigned 32-bit interpretation of four bytes, the
ideal value the spec describes. -/
def beU32 (b0 b1 b2 b3 : Nat) : Nat :=
  ((b0 * 256 + b1) * 256 + b2) * 256 + b3

/-- Which `return` statement `read_next_chunk` took.  In the C source both
failure exits map to `LV_RES_INV`; the model keeps them apart. -/
inductive RncExit
  | ok
  | negLen
  | headerFeedErr
  | dataFeedErr
deriving DecidableEq

/-- The burst sizes of the loop at source lines 185-193:
`while (chunk_length > 0) { btr = min(chunk_length, 1024); ...;
chunk_length -= btr; }`, written in closed form: full 1024-byte bursts
followed by the remainder. -/
def burstSizes (n : Nat) : List Nat :=
  List.replicate (n / 1024) 1024 ++ (if n % 1024 = 0 then [] else [n % 1024])

/-- The loop body at source lines 185-193, iterated over the burst sizes:
read `btr` bytes (junk-padded on short reads — `rb` is never checked) and
feed them; stop with `LV_RES_INV` on a negative feed result.  The
accumulator records the size of every feed call made so far. -/
def feedBursts (M : Pngle σ) (d : Depth) (regs : CbRegs) (junk : Nat → Nat) :
    List Nat → σ → UD → LvFile → List Nat → RncExit × σ × UD × LvFile × List Nat
  | [], p, ud, f, acc => (RncExit.ok, p, ud, f, acc)
  | btr :: rest, p, ud, f, acc =>
      let r1 := lv_fs_read f btr junk
      let r2 := pngleFeed M d regs p ud r1.1
      if r2.2.2 < 0 then (RncExit.dataFeedErr, r2.1, r2.2.1, r1.2, acc ++ [btr])
      else feedBursts M d regs junk rest r2.1 r2.2.1 r1.2 (acc ++ [btr])

/-- The result of `read_next_chunk`: exit taken, parser state, user data,
file, the computed `chunk_length`, and the byte count of every
`pngle_feed` call made. -/
structure RncOut (σ : Type) where
  exit : RncExit
  ps : σ
  ud : UD
  f : LvFile
  clen : Int
  feeds : List Nat

/-- Model of `read_next_chunk` (source lines 172-195): read 8 header bytes, compute
`chunk_length` (big-endian length field plus 4 for the CRC, in `int`
arithmetic), fail if it is negative, feed the 8-byte header, then feed
`chunk_length` bytes in bursts of at most 1024. -/
def read_next_chunk (M : Pngle σ) (d : Depth) (sgn : Bool) (regs : CbRegs)
    (junk : Nat → Nat) (p : σ) (ud : UD) (f : LvFile) : RncOut σ :=
  let r1 := lv_fs_read f 8 junk
  let clen := chunkLenInt sgn (r1.1.getD 0 0) (r1.1.getD 1 0) (r1.1.getD 2 0) (r1.1.getD 3 0)
  if clen < 0 then ⟨RncExit.negLen, p, ud, r1.2, clen, []⟩
  else
    let r2 := pngleFeed M d regs p ud r1.1
    if r2.2.2 < 0 then ⟨RncExit.headerFeedErr, r2.1, r2.2.1, r1.2, clen, [8]⟩
    else
      let r3 := feedBursts M d regs junk (burstSizes clen.toNat) r2.1 r2.2.1 r1.2 []
      ⟨r3.1, r3.2.1, r3.2.2.1, r3.2.2.2.1, clen, 8 :: r3.2.2.2.2⟩

/-- The mutable state a decode phase threads: parser state, user data
(through the parser's user-data slot), and the open file. -/
structure St (σ : Type) where
  ps : σ
  ud : UD
  f : LvFile

/-- The `while (!hdr_ready) read_next_chunk(...)` loop of
`get_pngle_header` (source lines 213-216), with explicit fuel: `none`
means the fuel ran out with the loop still running.  The `Bool` is
`true` for `LV_RES_OK`. -/
def hdrLoop (M : Pngle σ) (d : Depth) (sgn : Bool) (regs : CbRegs)
    (junk : Nat → Nat) : Nat → St σ → Option (Bool × St σ)
  | fuel, st =>
    if st.ud.hdrReady then some (true, st)
    else
      match fuel with
      | 0 => none
      | fuel' + 1 =>
        let o := read_next_chunk M d sgn regs junk st.ps st.ud st.f
        if o.exit = RncExit.ok then hdrLoop M d sgn regs junk fuel' ⟨o.ps, o.ud, o.f⟩
        else some (false, ⟨o.ps, o.ud, o.f⟩)

/-- Model of `get_pngle_header` (source lines 203-218): read and feed the 8-byte file
signature (failing if the parser rejects it), then loop chunk reads until
`hdr_ready`. -/
def get_pngle_header (M : Pngle σ) (d : Depth) (sgn : Bool) (regs : CbRegs)
    (junk : Nat → Nat) (fuel : Nat) (st : St σ) : Option (Bool × St σ) :=
  let r1 := lv_fs_read st.f 8 junk
  let r2 := pngleFeed M d regs st.ps st.ud r1.1
  if r2.2.2 < 0 then some (false, ⟨r2.1, r2.2.1, r1.2⟩)
  else hdrLoop M d sgn regs junk fuel ⟨r2.1, r2.2.1, r1.2⟩

/-- Model of `get_pngle_data` (source lines 226-232): a do-while loop reading chunks
until `data_ready` is observed, with explicit fuel (`none` = still
looping). -/
def get_pngle_data (M : Pngle σ) (d : Depth) (sgn : Bool) (regs : CbRegs)
    (junk : Nat → Nat) : Nat → St σ → Option (Bool × St σ)
  | 0, _ => none
  | fuel + 1, st =>
    let o := read_next_chunk M d sgn regs junk st.ps st.ud st.f
    if o.exit = RncExit.ok then
      if o.ud.dataReady then some (true, ⟨o.ps, o.ud, o.f⟩)
      else get_pngle_data M d sgn regs junk fuel ⟨o.ps, o.ud, o.f⟩
    else some (false, ⟨o.ps, o.ud, o.f⟩)

/-- The `lv_img_dsc_t` in-memory image descriptor: raw bytes plus the
header fields (`w`, `h`, `cf`) the host filled in earlier. -/
structure ImgDsc where
  data : List Nat
  w : Nat
  h : Nat
  cf : Nat
deriving DecidableEq

/-- An image source as LVGL hands it over: a file path with the file the
path resolves to (`none` when `lv_fs_open` fails), an in-memory
descriptor, or any other source type (symbol, unknown). -/
inductive ImgSrc
  | file (name : List Char) (contents : Option (List Nat))
  | varBuf (img : ImgDsc)
  | other
deriving DecidableEq

/-- The filename test `!strcmp(&fn[strlen(fn) - 3], "png")` at source lines
241 and 313: the string's last three characters are `png` (for names
shorter than three characters the C indexes before the string, which is
undefined; modelled as comparing what there is). -/
def suffixIsPng (name : List Char) : Bool :=
  name.drop (name.length - 3) = ['p', 'n', 'g']

/-- Read `btr` bytes of an in-memory image at offset `pos` (source line
348, `img_src->data + pos`): indices past the descriptor's data are
out-of-bounds reads, modelled by the arbitrary byte function `junk`. -/
def memRead (data : List Nat) (pos btr : Nat) (junk : Nat → Nat) : List Nat :=
  (List.range btr).map fun i => data.getD (pos + i) (junk (pos + i) % 256)

/-- The feed loop of the in-memory branch of `pngle_decoder_open` (source
lines 345-354): `while (!ud.data_ready)` feed `min(sz, 1024)` bytes from
offset `pos` and advance `pos` — `sz` never shrinks and `pos` is never
compared with `sz`, so the walk can leave the buffer.  Fuel-indexed;
`none` = still looping; the `Bool` is the `failed` flag. -/
def memLoop (M : Pngle σ) (d : Depth) (regs : CbRegs) (junk : Nat → Nat)
    (data : List Nat) : Nat → σ → UD → Nat → Option (Bool × σ × UD)
  | fuel, p, ud, pos =>
    if ud.dataReady then some (false, p, ud)
    else
      match fuel with
      | 0 => none
      | fuel' + 1 =>
        let btr := min data.length 1024
        let r := pngleFeed M d regs p ud (memRead data pos btr junk)
        if r.2.2 < 0 then some (true, r.1, r.2.1)
        else memLoop M d regs junk data fuel' r.1 r.2.1 (pos + btr)

/-- What `pngle_decoder_open` did, beyond its `lv_res_t` result:
whether/what it assigned to `dsc->img_data` (`none` = the assignment at
source line 363 was not executed; `some v` = it assigned pointer `v`,
itself `none` for `NULL`, otherwise allocation contents plus pointer
offset); the `n_px` argument of every `lv_pngle_buffer_init` call; and
the offset (from the allocation start) of the pointer passed to `free`,
when the free at source line 360 ran. -/
structure OpenOut where
  res : LvRes
  imgAssign : Option (Option (List Nat × Int))
  allocs : List Nat
  freedOff : Option Int
deriving DecidableEq

/-- The common tail of `pngle_decoder_open` (source lines 357-366): on
failure, free `ud.data` if non-null (at whatever offset the write pointer
reached); on success, assign the pointer to `dsc->img_data`. -/
def openFinish (failed : Bool) (ud : UD) (allocs : List Nat) : OpenOut :=
  if failed then
    ⟨LvRes.inv, none, allocs, ud.base.map fun _ => ud.off⟩
  else
    ⟨LvRes.ok, some (ud.base.map fun l => (l, ud.off)), allocs, none⟩

/-- Callback registrations of the open path (all three). -/
def openRegs : CbRegs := ⟨true, true, true⟩

/-- Callback registrations of the info path (`pngle_set_init_callback`
only, source line 252). -/
def infoRegs : CbRegs := ⟨true, false, false⟩

/-- The stack-allocated `lv_pngle_data_t ud = {false, false, NULL}` of
`pngle_decoder_open` (source line 302). -/
def udStack0 : UD := ⟨false, false, none, 0⟩

/-- The heap record `lv_pngle_data_init` actually installs as user data
(source lines 74-79): flags cleared, `data` never initialized — modelled
as `NULL`; the caller's stack record is NOT the one the early callbacks
see. -/
def udHeap0 : UD := ⟨false, false, none, 0⟩

/-- Model of `pngle_decoder_open` (source lines 291-367).  Parameters beyond the
source's: the parser oracle `M` with its fresh state `p0` (`pngleNewOk =
false` models `pngle_new` returning `NULL`), the build depth `d`, `char`
signedness `sgn`, uninitialized-memory contents `junk`, and loop fuel.
`none` = some internal loop was still running when the fuel ran out.

Faithful quirks kept from the source: the header phase runs against the
heap user-data record, and only after `lv_pngle_buffer_init` is the stack
record (flags freshly false, `data` = the new buffer) installed via
`pngle_set_user_data` (line 322); a file source whose name does not end in
`png` skips everything, keeping `failed == false`. -/
def pngle_decoder_open (M : Pngle σ) (d : Depth) (sgn : Bool)
    (junk : Nat → Nat) (pngleNewOk : Bool) (p0 : σ) (fuel : Nat)
    (src : ImgSrc) : Option OpenOut :=
  match src with
  | ImgSrc.other => some ⟨LvRes.inv, none, [], none⟩
  | ImgSrc.file name contents =>
    if pngleNewOk then
      if suffixIsPng name then
        match contents with
        | none => some (openFinish true udStack0 [])
        | some bytes =>
          match get_pngle_header M d sgn openRegs junk fuel ⟨p0, udHeap0, ⟨bytes, 0⟩⟩ with
          | none => none
          | some (false, _) => some (openFinish true udStack0 [])
          | some (true, st) =>
            let w := M.width st.ps
            let h := M.height st.ps
            let ud1 : UD := { udStack0 with base := some (lv_pngle_buffer_init d (w * h)) }
            match get_pngle_data M d sgn openRegs junk fuel ⟨st.ps, ud1, st.f⟩ with
            | none => none
            | some (false, st2) => some (openFinish true st2.ud [w * h])
            | some (true, st2) => some (openFinish false st2.ud [w * h])
      else
        some (openFinish false udStack0 [])
    else some ⟨LvRes.inv, none, [], none⟩
  | ImgSrc.varBuf img =>
    if pngleNewOk then
      let w := img.w
      let h := img.h
      let ud1 : UD := { udStack0 with base := some (lv_pngle_buffer_init d (w * h)) }
      match memLoop M d openRegs junk img.data fuel p0 ud1 0 with
      | none => none
      | some (failed, _, ud2) => some (openFinish failed ud2 [w * h])
    else some ⟨LvRes.inv, none, [], none⟩

/-- The `lv_img_header_t` fields `pngle_decoder_info` fills in. -/
structure InfoHeader where
  cf : Nat
  w : Nat
  h : Nat
deriving DecidableEq

/-- The PNG signature magic compared at source line 278. -/
def pngMagic : List Nat := [0x89, 0x50, 0x4e, 0x47, 0x0d, 0x0a, 0x1a, 0x0a]

/-- The numeric value of `LV_IMG_CF_RAW_ALPHA` (opaque tag; the model only
needs it to be a fixed constant). -/
def cfRawAlpha : Nat := 2

/-- Model of `pngle_decoder_info` (source lines 235-288).  File branch: run only the
signature check and header phase and report the parser's dimensions with
`LV_IMG_CF_RAW_ALPHA`.  Memory branch: compare the first 8 bytes with the
PNG magic and, on a match, copy `w`/`h`/`cf` straight out of the
descriptor — no parser, no allocation, no fuel is involved.  `none` = the
header loop was still running when the fuel ran out. -/
def pngle_decoder_info (M : Pngle σ) (d : Depth) (sgn : Bool)
    (junk : Nat → Nat) (pngleNewOk : Bool) (p0 : σ) (fuel : Nat)
    (src : ImgSrc) : Option (LvRes × Option InfoHeader) :=
  match src with
  | ImgSrc.file name contents =>
    if suffixIsPng name then
      if pngleNewOk then
        match contents with
        | none => some (LvRes.inv, none)
        | some bytes =>
          match get_pngle_header M d sgn infoRegs junk fuel ⟨p0, udHeap0, ⟨bytes, 0⟩⟩ with
          | none => none
          | some (false, _) => some (LvRes.inv, none)
          | some (true, st) =>
            some (LvRes.ok, some ⟨cfRawAlpha, M.width st.ps, M.height st.ps⟩)
      else some (LvRes.inv, none)
    else some (LvRes.inv, none)
  | ImgSrc.varBuf img =>
    if img.data.take 8 = pngMagic then some (LvRes.ok, some ⟨img.cf, img.w, img.h⟩)
    else some (LvRes.inv, none)
  | ImgSrc.other => some (LvRes.inv, none)

/-! Concrete parser oracles and inputs used to evaluate the model on
specific runs. -/

/-- All-zero uninitialized-memory contents. -/
def junk0 : Nat → Nat := fun _ => 0

/-- The degenerate oracle: every feed is accepted, no callback ever fires,
dimensions are 0. -/
def M0 : Pngle Unit := ⟨fun _ _ => ((), 0, []), fun _ => 0, fun _ => 0⟩

/-- An oracle (state = number of feeds so far) that decodes one pixel on
the first feed and reports a parse error on the second. -/
def M9 : Pngle Nat :=
  ⟨fun k _ => (k + 1, if k = 0 then 0 else -1,
      if k = 0 then [PEvent.drawEvt 1 2 3 4] else []),
   fun _ => 0, fun _ => 0⟩

/-- A 2-by-1 in-memory source holding just the 8 signature bytes. -/
def img9 : ImgDsc := ⟨pngMagic, 2, 1, 0⟩

/-- An oracle that signals stream completion on the first feed, with
1-by-1 dimensions. -/
def M3w : Pngle Unit := ⟨fun _ _ => ((), 0, [PEvent.doneEvt]), fun _ => 1, fun _ => 1⟩

/-- A 1-by-1 in-memory source holding just the 8 signature bytes. -/
def img3w : ImgDsc := ⟨pngMagic, 1, 1, 0⟩

/-- An in-memory descriptor whose data starts with the PNG magic. -/
def img8w : ImgDsc := ⟨pngMagic ++ [0, 0, 0, 13], 3, 5, 7⟩

/-- The length of the allocation behind `ud->data` (`none` for `NULL`). -/
def baseLen (ud : UD) : Option Nat := ud.base.map List.length

/-! Helper lemmas. -/

/-- The list `burstSizes n` satisfies the loop's step equation, so it is exactly the
sequence of `btr` values the C loop at source lines 185-193 produces. -/
theorem burstSizes_step (n : Nat) (h : n ≠ 0) :
    burstSizes n = min n 1024 :: burstSizes (n - min n 1024) := by
  by_cases h1 : n < 1024
  · have hd : n / 1024 = 0 := Nat.div_eq_of_lt h1
    have hm : n % 1024 = n := Nat.mod_eq_of_lt h1
    have hmin : min n 1024 = n := Nat.min_eq_left (Nat.le_of_lt h1)
    simp [burstSizes, hd, hm, hmin, h]
  · have h1' : 1024 ≤ n := Nat.le_of_not_lt h1
    have hmin : min n 1024 = 1024 := Nat.min_eq_right h1'
    have hd : n / 1024 = (n - 1024) / 1024 + 1 := by omega
    have hm : n % 1024 = (n - 1024) % 1024 := by omega
    simp [burstSizes, hd, hm, hmin, List.replicate_succ]

/-- The packer stores exactly `bytes_per_pixel` bytes per pixel. -/
theorem packPixel_length (d : Depth) (r g b a : Nat) :
    (packPixel d r g b a).length = bytes_per_pixel d := by
  cases d <;> rfl

/-- In-place stores keep the buffer length. -/
theorem writeBytes_length (bs : List Nat) (l : List Nat) (i : Nat) :
    (writeBytes l i bs).length = l.length := by
  induction bs generalizing l i with
  | nil => rfl
  | cons b rest ih => simp [writeBytes, ih]

/-- Bit 7 of a byte-sized value is its 128s place. -/
theorem testBit_seven (x : Nat) (hx : x ≤ 255) :
    Nat.testBit x 7 = true ↔ 128 ≤ x := by
  rw [Nat.testBit_to_div_mod]
  rw [show (2 : Nat) ^ 7 = 128 from by norm_num]
  simp only [decide_eq_true_eq]
  omega

/-- Bitwise or of a shifted value with a value below the shift amount is
plain addition. -/
theorem lor_add_of_lt (a x K k : Nat) (hK : K = 2 ^ k) (hx : x < K) :
    (a * K) ||| x = a * K + x := by
  subst hK
  rw [Nat.mul_comm]
  exact (Nat.mul_add_lt_is_or hx a).symm

/-- When every length byte is below 0x80 there is no sign extension and no
overflow: the computed `chunk_length` is the big-endian value plus 4,
non-negative. -/
theorem chunkLen_small (sgn : Bool) (b0 b1 b2 b3 : Nat)
    (h0 : b0 < 128) (h1 : b1 < 128) (h2 : b2 < 128) (h3 : b3 < 128) :
    chunkLenInt sgn b0 b1 b2 b3 = (beU32 b0 b1 b2 b3 : Int) + 4 ∧
    0 ≤ chunkLenInt sgn b0 b1 b2 b3 := by
  have e0 : sextChar sgn b0 = b0 := by
    unfold sextChar
    rw [Nat.mod_eq_of_lt (by omega)]
    have hn : ¬(sgn ∧ 128 ≤ b0) := by rintro ⟨_, hle⟩; omega
    simp [hn]
  have e1 : sextChar sgn b1 = b1 := by
    unfold sextChar
    rw [Nat.mod_eq_of_lt (by omega)]
    have hn : ¬(sgn ∧ 128 ≤ b1) := by rintro ⟨_, hle⟩; omega
    simp [hn]
  have e2 : sextChar sgn b2 = b2 := by
    unfold sextChar
    rw [Nat.mod_eq_of_lt (by omega)]
    have hn : ¬(sgn ∧ 128 ≤ b2) := by rintro ⟨_, hle⟩; omega
    simp [hn]
  have e3 : sextChar sgn b3 = b3 := by
    unfold sextChar
    rw [Nat.mod_eq_of_lt (by omega)]
    have hn : ¬(sgn ∧ 128 ≤ b3) := by rintro ⟨_, hle⟩; omega
    simp [hn]
  unfold chunkLenInt
  rw [e0, e1, e2, e3]
  rw [Nat.shiftLeft_eq, Nat.shiftLeft_eq, Nat.shiftLeft_eq]
  rw [show (2 : Nat) ^ 24 = 16777216 from by norm_num,
      show (2 : Nat) ^ 16 = 65536 from by norm_num,
      show (2 : Nat) ^ 8 = 256 from by norm_num]
  have u0 : u32 (b0 * 16777216) = b0 * 16777216 := Nat.mod_eq_of_lt (by omega)
  have u1 : u32 (b1 * 65536) = b1 * 65536 := Nat.mod_eq_of_lt (by omega)
  have u2 : u32 (b2 * 256) = b2 * 256 := Nat.mod_eq_of_lt (by omega)
  rw [u0, u1, u2]
  have s1 : (b0 * 16777216) ||| (b1 * 65536) = b0 * 16777216 + b1 * 65536 := by
    have hx : b1 * 65536 < 16777216 := by omega
    exact lor_add_of_lt b0 (b1 * 65536) 16777216 24 (by norm_num) hx
  have s2 : (b0 * 16777216 + b1 * 65536) ||| (b2 * 256) =
      b0 * 16777216 + b1 * 65536 + b2 * 256 := by
    have hx : b2 * 256 < 65536 := by omega
    have hrw : b0 * 16777216 + b1 * 65536 = (b0 * 256 + b1) * 65536 := by ring
    rw [hrw, lor_add_of_lt (b0 * 256 + b1) (b2 * 256) 65536 16 (by norm_num) hx]
  have s3 : (b0 * 16777216 + b1 * 65536 + b2 * 256) ||| b3 =
      b0 * 16777216 + b1 * 65536 + b2 * 256 + b3 := by
    have hx : b3 < 256 := by omega
    have hrw : b0 * 16777216 + b1 * 65536 + b2 * 256 =
        ((b0 * 256 + b1) * 256 + b2) * 256 := by ring
    rw [hrw, lor_add_of_lt ((b0 * 256 + b1) * 256 + b2) b3 256 8 (by norm_num) hx]
  rw [s1, s2, s3]
  have hbe : beU32 b0 b1 b2 b3 = b0 * 16777216 + b1 * 65536 + b2 * 256 + b3 := by
    unfold beU32; ring
  have hlt : b0 * 16777216 + b1 * 65536 + b2 * 256 + b3 + 4 < 2147483648 := by omega
  rw [show u32 (b0 * 16777216 + b1 * 65536 + b2 * 256 + b3 + 4) =
      b0 * 16777216 + b1 * 65536 + b2 * 256 + b3 + 4 from Nat.mod_eq_of_lt (by omega)]
  unfold toInt32
  rw [if_pos hlt]
  constructor
  · rw [hbe]; push_cast; ring
  · omega

/-- The loop `feedBursts` can only exit with `ok` or `dataFeedErr`. -/
theorem feedBursts_exit_ne_negLen (M : Pngle σ) (d : Depth) (regs : CbRegs)
    (junk : Nat → Nat) (l : List Nat) :
    ∀ p ud f acc, (feedBursts M d regs junk l p ud f acc).1 ≠ RncExit.negLen ∧
      (feedBursts M d regs junk l p ud f acc).1 ≠ RncExit.headerFeedErr := by
  induction l with
  | nil => intro p ud f acc; simp [feedBursts]
  | cons btr rest ih =>
    intro p ud f acc
    simp only [feedBursts]
    by_cases h : (pngleFeed M d regs p ud (lv_fs_read f btr junk).1).2.2 < 0
    · simp [h]
    · simp only [h, if_false]
      exact ih _ _ _ _

/-- Against a parser that accepts every feed, `feedBursts` succeeds and
makes exactly one feed call per burst. -/
theorem feedBursts_accepting (M : Pngle σ) (d : Depth) (regs : CbRegs)
    (junk : Nat → Nat) (hM : ∀ q bs, 0 ≤ (M.feed q bs).2.1) (l : List Nat) :
    ∀ p ud f acc, (feedBursts M d regs junk l p ud f acc).1 = RncExit.ok ∧
      (feedBursts M d regs junk l p ud f acc).2.2.2.2 = acc ++ l := by
  induction l with
  | nil => intro p ud f acc; simp [feedBursts]
  | cons btr rest ih =>
    intro p ud f acc
    simp only [feedBursts]
    have hge : ¬ (pngleFeed M d regs p ud (lv_fs_read f btr junk).1).2.2 < 0 := by
      have := hM p (lv_fs_read f btr junk).1
      simp only [pngleFeed]
      omega
    simp only [hge, if_false]
    rcases ih (pngleFeed M d regs p ud (lv_fs_read f btr junk).1).1
        (pngleFeed M d regs p ud (lv_fs_read f btr junk).1).2.1
        (lv_fs_read f btr junk).2 (acc ++ [btr]) with ⟨ha, hb⟩
    refine ⟨ha, ?_⟩
    rw [hb]
    simp

/-- The burst sizes sum to the chunk length and each is a positive burst
of at most 1024 bytes. -/
theorem burstSizes_spec (n : Nat) :
    (burstSizes n).sum = n ∧ ∀ x ∈ burstSizes n, 0 < x ∧ x ≤ 1024 := by
  constructor
  · unfold burstSizes
    rw [List.sum_append, List.sum_replicate, smul_eq_mul]
    by_cases h : n % 1024 = 0
    · rw [if_pos h]
      simp only [List.sum_nil]
      omega
    · rw [if_neg h]
      simp only [List.sum_cons, List.sum_nil]
      omega
  · intro x hx
    unfold burstSizes at hx
    rcases List.mem_append.mp hx with h | h
    · rw [List.eq_of_mem_replicate h]; omega
    · by_cases hm : n % 1024 = 0
      · simp [hm] at h
      · simp only [hm, if_false, List.mem_singleton] at h
        have := Nat.mod_lt n (show 0 < 1024 from by norm_num)
        omega

/-- The reader `read_next_chunk` reports the chunk length it computed from the first
four bytes of the 8-byte header read, on every exit path. -/
theorem rnc_clen (M : Pngle σ) (d : Depth) (sgn : Bool) (regs : CbRegs)
    (junk : Nat → Nat) (p : σ) (ud : UD) (f : LvFile) :
    (read_next_chunk M d sgn regs junk p ud f).clen =
      chunkLenInt sgn ((lv_fs_read f 8 junk).1.getD 0 0)
        ((lv_fs_read f 8 junk).1.getD 1 0) ((lv_fs_read f 8 junk).1.getD 2 0)
        ((lv_fs_read f 8 junk).1.getD 3 0) := by
  simp only [read_next_chunk]
  split
  · rfl
  · split
    · rfl
    · rfl

/-- The malformed-chunk exit is taken exactly when the computed
`chunk_length` is negative. -/
theorem rnc_negLen_iff (M : Pngle σ) (d : Depth) (sgn : Bool) (regs : CbRegs)
    (junk : Nat → Nat) (p : σ) (ud : UD) (f : LvFile) :
    ((read_next_chunk M d sgn regs junk p ud f).exit = RncExit.negLen ↔
      (read_next_chunk M d sgn regs junk p ud f).clen < 0) := by
  simp only [read_next_chunk]
  split
  · next hlt => simpa using hlt
  · next hge =>
    split
    · next hfeed =>
      constructor
      · intro hx
        exact absurd hx (by simp)
      · intro hx
        exact absurd hx hge
    · next hfeed =>
      constructor
      · intro hx
        exact absurd hx ((feedBursts_exit_ne_negLen M d regs junk _ _ _ _ _).1)
      · intro hx
        exact absurd hx hge

/-- With a non-negative computed length and a parser accepting every feed,
`read_next_chunk` succeeds and its feed calls are the 8-byte header
followed by the burst sizes of the chunk length. -/
theorem rnc_accepting (M : Pngle σ) (d : Depth) (sgn : Bool) (regs : CbRegs)
    (junk : Nat → Nat) (p : σ) (ud : UD) (f : LvFile)
    (hM : ∀ q bs, 0 ≤ (M.feed q bs).2.1)
    (hc : ¬ (read_next_chunk M d sgn regs junk p ud f).clen < 0) :
    (read_next_chunk M d sgn regs junk p ud f).exit = RncExit.ok ∧
    (read_next_chunk M d sgn regs junk p ud f).feeds =
      8 :: burstSizes (read_next_chunk M d sgn regs junk p ud f).clen.toNat := by
  rw [rnc_clen M d sgn regs junk p ud f] at hc
  rw [rnc_clen M d sgn regs junk p ud f]
  simp only [read_next_chunk]
  split
  · next hlt => exact absurd hlt hc
  · next hge =>
    split
    · next hfeed =>
      exfalso
      have := hM p (lv_fs_read f 8 junk).1
      simp only [pngleFeed] at hfeed
      omega
    · next hfeed =>
      refine ⟨(feedBursts_accepting M d regs junk hM _ _ _ _ _).1, ?_⟩
      show 8 :: _ = 8 :: _
      rw [(feedBursts_accepting M d regs junk hM _ _ _ _ _).2]
      simp

/-- If the burst loop runs clean through a prefix `l1` of its burst list
and the feed of the next burst reports an error, the whole loop exits
with the data-feed failure (the `return LV_RES_INV` at source lines
189-192), whatever bursts were still to come. -/
theorem feedBursts_reject_anywhere (M : Pngle σ) (d : Depth) (regs : CbRegs)
    (junk : Nat → Nat) (l1 : List Nat) : ∀ (btr : Nat) (rest : List Nat)
    (p : σ) (ud : UD) (f : LvFile) (acc : List Nat),
    (feedBursts M d regs junk l1 p ud f acc).1 = RncExit.ok →
    (pngleFeed M d regs (feedBursts M d regs junk l1 p ud f acc).2.1
        (feedBursts M d regs junk l1 p ud f acc).2.2.1
        (lv_fs_read (feedBursts M d regs junk l1 p ud f acc).2.2.2.1 btr junk).1).2.2 < 0 →
    (feedBursts M d regs junk (l1 ++ btr :: rest) p ud f acc).1 =
      RncExit.dataFeedErr := by
  induction l1 with
  | nil =>
    intro btr rest p ud f acc hok hrej
    simp only [feedBursts] at hrej
    simp only [List.nil_append, feedBursts]
    rw [if_pos hrej]
  | cons b l1 ih =>
    intro btr rest p ud f acc hok hrej
    simp only [feedBursts] at hok hrej
    simp only [List.cons_append, feedBursts]
    by_cases h : (pngleFeed M d regs p ud (lv_fs_read f b junk).1).2.2 < 0
    · rw [if_pos h] at hok
      simp at hok
    · rw [if_neg h] at hok hrej
      rw [if_neg h]
      exact ih btr rest _ _ _ _ hok hrej

/-- Lifted to `read_next_chunk`: with a non-negative length and an
accepted header feed, if the data-burst loop runs clean up to some burst
whose feed then reports an error, the call fails with the data-feed
failure exit. -/
theorem rnc_burst_reject (M : Pngle σ) (d : Depth) (sgn : Bool) (regs : CbRegs)
    (junk : Nat → Nat) (p : σ) (ud : UD) (f : LvFile) (l1 : List Nat)
    (btr : Nat) (rest : List Nat)
    (hc : ¬ (read_next_chunk M d sgn regs junk p ud f).clen < 0)
    (hhdr : ¬ (pngleFeed M d regs p ud (lv_fs_read f 8 junk).1).2.2 < 0)
    (hdec : burstSizes (read_next_chunk M d sgn regs junk p ud f).clen.toNat =
      l1 ++ btr :: rest)
    (hok : (feedBursts M d regs junk l1
        (pngleFeed M d regs p ud (lv_fs_read f 8 junk).1).1
        (pngleFeed M d regs p ud (lv_fs_read f 8 junk).1).2.1
        (lv_fs_read f 8 junk).2 []).1 = RncExit.ok)
    (hrej : (pngleFeed M d regs
        (feedBursts M d regs junk l1
          (pngleFeed M d regs p ud (lv_fs_read f 8 junk).1).1
          (pngleFeed M d regs p ud (lv_fs_read f 8 junk).1).2.1
          (lv_fs_read f 8 junk).2 []).2.1
        (feedBursts M d regs junk l1
          (pngleFeed M d regs p ud (lv_fs_read f 8 junk).1).1
          (pngleFeed M d regs p ud (lv_fs_read f 8 junk).1).2.1
          (lv_fs_read f 8 junk).2 []).2.2.1
        (lv_fs_read (feedBursts M d regs junk l1
          (pngleFeed M d regs p ud (lv_fs_read f 8 junk).1).1
          (pngleFeed M d regs p ud (lv_fs_read f 8 junk).1).2.1
          (lv_fs_read f 8 junk).2 []).2.2.2.1 btr junk).1).2.2 < 0) :
    (read_next_chunk M d sgn regs junk p ud f).exit = RncExit.dataFeedErr := by
  rw [rnc_clen M d sgn regs junk p ud f] at hc hdec
  simp only [read_next_chunk]
  split
  · next hlt => exact absurd hlt hc
  · show (feedBursts M d regs junk _ _ _ _ _).1 = RncExit.dataFeedErr
    rw [hdec]
    exact feedBursts_reject_anywhere M d regs junk l1 btr rest _ _ _ _ hok hrej

/-- A rejected header feed (with a non-negative length) takes the
header-feed failure exit. -/
theorem rnc_header_reject (M : Pngle σ) (d : Depth) (sgn : Bool) (regs : CbRegs)
    (junk : Nat → Nat) (p : σ) (ud : UD) (f : LvFile)
    (hc : ¬ (read_next_chunk M d sgn regs junk p ud f).clen < 0)
    (hf : (pngleFeed M d regs p ud (lv_fs_read f 8 junk).1).2.2 < 0) :
    (read_next_chunk M d sgn regs junk p ud f).exit = RncExit.headerFeedErr := by
  rw [rnc_clen M d sgn regs junk p ud f] at hc
  simp only [read_next_chunk]
  split
  · next hlt => exact absurd hlt hc
  · rfl

/-- The draw callback never changes the allocation's length. -/
theorem draw_baseLen (d : Depth) (r g b a : Nat) (ud : UD) :
    baseLen (pngle_draw_cb d r g b a ud) = baseLen ud := by
  unfold pngle_draw_cb baseLen
  cases hb : ud.base with
  | none => simp
  | some l =>
    simp only [Option.map_some]
    by_cases h0 : (0 : Int) ≤ ud.off <;> simp [h0, writeBytes_length]

/-- No callback changes the allocation's length. -/
theorem applyEvent_baseLen (d : Depth) (regs : CbRegs) (pw ph : Nat) (ud : UD)
    (e : PEvent) : baseLen (applyEvent d regs pw ph ud e) = baseLen ud := by
  cases e with
  | initEvt w h =>
    unfold applyEvent
    by_cases h : regs.hasInit <;> simp [h, pngle_init_cb, baseLen]
  | drawEvt r g b a =>
    unfold applyEvent
    by_cases h : regs.hasDraw <;> simp [h, draw_baseLen]
  | doneEvt =>
    unfold applyEvent
    by_cases h : regs.hasDone <;> cases d <;> simp [h, pngle_done_cb, baseLen]

/-- Folding any event list keeps the allocation's length. -/
theorem foldl_applyEvent_baseLen (d : Depth) (regs : CbRegs) (pw ph : Nat)
    (evs : List PEvent) : ∀ ud : UD,
    baseLen (evs.foldl (applyEvent d regs pw ph) ud) = baseLen ud := by
  induction evs with
  | nil => intro ud; rfl
  | cons e rest ih =>
    intro ud
    rw [List.foldl_cons, ih, applyEvent_baseLen]

/-- A feed call keeps the allocation's length. -/
theorem pngleFeed_baseLen (M : Pngle σ) (d : Depth) (regs : CbRegs) (p : σ)
    (ud : UD) (bs : List Nat) :
    baseLen (pngleFeed M d regs p ud bs).2.1 = baseLen ud := by
  unfold pngleFeed
  exact foldl_applyEvent_baseLen _ _ _ _ _ _

/-- The burst loop keeps the allocation's length. -/
theorem feedBursts_baseLen (M : Pngle σ) (d : Depth) (regs : CbRegs)
    (junk : Nat → Nat) (l : List Nat) : ∀ (p : σ) (ud : UD) (f : LvFile)
    (acc : List Nat),
    baseLen (feedBursts M d regs junk l p ud f acc).2.2.1 = baseLen ud := by
  induction l with
  | nil => intro p ud f acc; rfl
  | cons btr rest ih =>
    intro p ud f acc
    simp only [feedBursts]
    by_cases h : (pngleFeed M d regs p ud (lv_fs_read f btr junk).1).2.2 < 0
    · simp only [h, if_true]
      exact pngleFeed_baseLen M d regs p ud _
    · simp only [h, if_false]
      rw [ih]
      exact pngleFeed_baseLen M d regs p ud _

/-- The reader `read_next_chunk` keeps the allocation's length. -/
theorem rnc_baseLen (M : Pngle σ) (d : Depth) (sgn : Bool) (regs : CbRegs)
    (junk : Nat → Nat) (p : σ) (ud : UD) (f : LvFile) :
    baseLen (read_next_chunk M d sgn regs junk p ud f).ud = baseLen ud := by
  simp only [read_next_chunk]
  split
  · rfl
  · split
    · exact pngleFeed_baseLen M d regs p ud _
    · show baseLen (feedBursts M d regs junk _ _ _ _ _).2.2.1 = baseLen ud
      rw [feedBursts_baseLen]
      exact pngleFeed_baseLen M d regs p ud _

/-- The data-phase loop keeps the allocation's length. -/
theorem get_pngle_data_baseLen (M : Pngle σ) (d : Depth) (sgn : Bool)
    (regs : CbRegs) (junk : Nat → Nat) : ∀ (fuel : Nat) (st : St σ) (b : Bool)
    (st2 : St σ), get_pngle_data M d sgn regs junk fuel st = some (b, st2) →
    baseLen st2.ud = baseLen st.ud := by
  intro fuel
  induction fuel with
  | zero => intro st b st2 h; exact absurd h (by simp [get_pngle_data])
  | succ fuel ih =>
    intro st b st2 h
    simp only [get_pngle_data] at h
    by_cases he : (read_next_chunk M d sgn regs junk st.ps st.ud st.f).exit = RncExit.ok
    · simp only [he, if_pos, if_true] at h
      by_cases hd : (read_next_chunk M d sgn regs junk st.ps st.ud st.f).ud.dataReady
      · rw [if_pos hd] at h
        cases h
        exact rnc_baseLen M d sgn regs junk st.ps st.ud st.f
      · rw [if_neg hd] at h
        rw [ih _ _ _ h]
        exact rnc_baseLen M d sgn regs junk st.ps st.ud st.f
    · simp only [he, if_false] at h
      cases h
      exact rnc_baseLen M d sgn regs junk st.ps st.ud st.f

/-- The in-memory feed loop keeps the allocation's length. -/
theorem memLoop_baseLen (M : Pngle σ) (d : Depth) (regs : CbRegs)
    (junk : Nat → Nat) (data : List Nat) : ∀ (fuel : Nat) (p : σ) (ud : UD)
    (pos : Nat) (b : Bool) (p2 : σ) (ud2 : UD),
    memLoop M d regs junk data fuel p ud pos = some (b, p2, ud2) →
    baseLen ud2 = baseLen ud := by
  intro fuel
  induction fuel with
  | zero =>
    intro p ud pos b p2 ud2 h
    simp only [memLoop] at h
    by_cases hd : ud.dataReady
    · simp only [hd, if_true] at h
      cases h
      rfl
    · simp [hd] at h
  | succ fuel ih =>
    intro p ud pos b p2 ud2 h
    simp only [memLoop] at h
    by_cases hd : ud.dataReady
    · simp only [hd, if_true] at h
      cases h
      rfl
    · simp only [hd, if_false] at h
      by_cases he : (pngleFeed M d regs p ud
          (memRead data pos (min data.length 1024) junk)).2.2 < 0
      · simp only [he, if_true] at h
        cases h
        exact pngleFeed_baseLen M d regs p ud _
      · simp only [he, if_false] at h
        rw [ih _ _ _ _ _ _ h]
        exact pngleFeed_baseLen M d regs p ud _

/-! The claims. -/

/-- Claim C1: for every RGBA quadruplet with components in 0..255 the
pixel-ready callback stores exactly the bytes the packing table
prescribes: 32-bit stores B,G,R,A; 16-bit stores the value
`((R and 0xF8) shl 8) or ((G and 0xFC) shl 3) or ((B and 0xF8) shr 3)`
little-endian (low byte first; the two stored bytes recompose to it)
followed by the alpha byte; 8-bit stores
`(R and 0xE0) or ((G and 0xE0) shr 3) or ((B and 0xC0) shr 6)` then alpha;
1-bit stores `((R or G or B) and 0x80) shr 7` (1 exactly when some
channel has its high bit set) then alpha; and the quadruplet
(0xFF,0x00,0x00,0x80) packs to [0x00,0x00,0xFF,0x80], to 0xF800
little-endian then 0x80, to 0xE0 then 0x80, and to 0x01 then 0x80. -/
theorem C1_pixel_packing (r g b a : Nat)
    (hr : r ≤ 255) (hg : g ≤ 255) (hb : b ≤ 255) (ha : a ≤ 255) :
    packPixel Depth.d32 r g b a = [b, g, r, a] ∧
    packPixel Depth.d16 r g b a =
      [(((r &&& 0xf8) <<< 8) ||| ((g &&& 0xfc) <<< 3) ||| ((b &&& 0xf8) >>> 3)) % 256,
       (((r &&& 0xf8) <<< 8) ||| ((g &&& 0xfc) <<< 3) ||| ((b &&& 0xf8) >>> 3)) / 256,
       a] ∧
    ((((r &&& 0xf8) <<< 8) ||| ((g &&& 0xfc) <<< 3) ||| ((b &&& 0xf8) >>> 3)) % 256) +
        256 * ((((r &&& 0xf8) <<< 8) ||| ((g &&& 0xfc) <<< 3) ||| ((b &&& 0xf8) >>> 3)) / 256) =
      ((r &&& 0xf8) <<< 8) ||| ((g &&& 0xfc) <<< 3) ||| ((b &&& 0xf8) >>> 3) ∧
    packPixel Depth.d8 r g b a =
      [(r &&& 0xe0) ||| ((g &&& 0xe0) >>> 3) ||| ((b &&& 0xc0) >>> 6), a] ∧
    packPixel Depth.d1 r g b a = [((r ||| g ||| b) &&& 0x80) >>> 7, a] ∧
    (((r ||| g ||| b) &&& 0x80) >>> 7 = 1 ↔ (128 ≤ r ∨ 128 ≤ g ∨ 128 ≤ b)) ∧
    packPixel Depth.d32 0xff 0x00 0x00 0x80 = [0x00, 0x00, 0xff, 0x80] ∧
    packPixel Depth.d16 0xff 0x00 0x00 0x80 = [0x00, 0xf8, 0x80] ∧
    (0x00 + 256 * 0xf8 = 0xf800 ∧
     packPixel Depth.d8 0xff 0x00 0x00 0x80 = [0xe0, 0x80] ∧
     packPixel Depth.d1 0xff 0x00 0x00 0x80 = [0x01, 0x80]) := by
  have hA : (r &&& 0xf8) <<< 8 < 2 ^ 16 := by
    have h := Nat.and_le_right (n := r) (m := 0xf8)
    rw [Nat.shiftLeft_eq]
    calc (r &&& 0xf8) * 2 ^ 8 ≤ 0xf8 * 2 ^ 8 := Nat.mul_le_mul_right _ h
      _ < 2 ^ 16 := by norm_num
  have hB : (g &&& 0xfc) <<< 3 < 2 ^ 16 := by
    have h := Nat.and_le_right (n := g) (m := 0xfc)
    rw [Nat.shiftLeft_eq]
    calc (g &&& 0xfc) * 2 ^ 3 ≤ 0xfc * 2 ^ 3 := Nat.mul_le_mul_right _ h
      _ < 2 ^ 16 := by norm_num
  have hC : (b &&& 0xf8) >>> 3 < 2 ^ 16 := by
    rw [Nat.shiftRight_eq_div_pow]
    exact lt_of_le_of_lt (le_trans (Nat.div_le_self _ _) Nat.and_le_right) (by norm_num)
  have hv : ((r &&& 0xf8) <<< 8) ||| ((g &&& 0xfc) <<< 3) ||| ((b &&& 0xf8) >>> 3) < 65536 := by
    have := Nat.or_lt_two_pow (Nat.or_lt_two_pow hA hB) hC
    simpa using this
  have h16 : packPixel Depth.d16 r g b a =
      [(((r &&& 0xf8) <<< 8) ||| ((g &&& 0xfc) <<< 3) ||| ((b &&& 0xf8) >>> 3)) % 256,
       (((r &&& 0xf8) <<< 8) ||| ((g &&& 0xfc) <<< 3) ||| ((b &&& 0xf8) >>> 3)) / 256,
       a] := by
    show [_, _, _] = _
    rw [Nat.mod_eq_of_lt hv]
    rw [show (0xff : Nat) = 2 ^ 8 - 1 from by norm_num,
        Nat.and_pow_two_sub_one_eq_mod]
    simp only [Nat.shiftRight_eq_div_pow]
  have h8lt : (r &&& 0xe0) ||| ((g &&& 0xe0) >>> 3) ||| ((b &&& 0xc0) >>> 6) < 256 := by
    have h1 : r &&& 0xe0 < 2 ^ 8 := lt_of_le_of_lt Nat.and_le_right (by norm_num)
    have h2 : (g &&& 0xe0) >>> 3 < 2 ^ 8 := by
      rw [Nat.shiftRight_eq_div_pow]
      exact lt_of_le_of_lt (le_trans (Nat.div_le_self _ _) Nat.and_le_right) (by norm_num)
    have h3 : (b &&& 0xc0) >>> 6 < 2 ^ 8 := by
      rw [Nat.shiftRight_eq_div_pow]
      exact lt_of_le_of_lt (le_trans (Nat.div_le_self _ _) Nat.and_le_right) (by norm_num)
    have := Nat.or_lt_two_pow (Nat.or_lt_two_pow h1 h2) h3
    simpa using this
  have h8 : packPixel Depth.d8 r g b a =
      [(r &&& 0xe0) ||| ((g &&& 0xe0) >>> 3) ||| ((b &&& 0xc0) >>> 6), a] := by
    show [_, _] = _
    rw [Nat.mod_eq_of_lt h8lt]
  have h1lt : (r ||| g ||| b) &&& 0x80 < 256 :=
    lt_of_le_of_lt Nat.and_le_right (by norm_num)
  have h1eq : packPixel Depth.d1 r g b a = [((r ||| g ||| b) &&& 0x80) >>> 7, a] := by
    show [_, _] = _
    rw [Nat.mod_eq_of_lt h1lt]
  have hrgb : r ||| g ||| b ≤ 255 := by
    have h1 : r < 2 ^ 8 := lt_of_le_of_lt hr (by norm_num)
    have h2 : g < 2 ^ 8 := lt_of_le_of_lt hg (by norm_num)
    have h3 : b < 2 ^ 8 := lt_of_le_of_lt hb (by norm_num)
    have := Nat.or_lt_two_pow (Nat.or_lt_two_pow h1 h2) h3
    omega
  have hbit : ((r ||| g ||| b) &&& 0x80) >>> 7 = 1 ↔ (128 ≤ r ∨ 128 ≤ g ∨ 128 ≤ b) := by
    rw [show (0x80 : Nat) = 2 ^ 7 from by norm_num, Nat.and_two_pow,
        Nat.shiftRight_eq_div_pow,
        Nat.mul_div_cancel _ (by norm_num : 0 < (2 : Nat) ^ 7)]
    rw [show ((r ||| g ||| b).testBit 7).toNat = 1 ↔ (r ||| g ||| b).testBit 7 = true from by
      cases (r ||| g ||| b).testBit 7 <;> simp]
    rw [Nat.testBit_lor, Nat.testBit_lor]
    rw [Bool.or_eq_true, Bool.or_eq_true]
    rw [testBit_seven r hr, testBit_seven g hg, testBit_seven b hb]
    tauto
  exact ⟨rfl, h16, Nat.mod_add_div _ _, h8, h1eq, hbit,
    by decide, by decide, by decide, by decide, by decide⟩

/-- Witness for C1 at the quadruplet (0x90, 0x47, 0x33, 0x12). -/
theorem C1_pixel_packing_witness :
    packPixel Depth.d32 0x90 0x47 0x33 0x12 = [0x33, 0x47, 0x90, 0x12] ∧
    (((0x90 &&& 0xf8) <<< 8) ||| ((0x47 &&& 0xfc) <<< 3) |||
        ((0x33 &&& 0xf8) >>> 3)) >>> 0 % 2 ^ 32 = 0x9226 :=
  ⟨(C1_pixel_packing 0x90 0x47 0x33 0x12 (by decide) (by decide) (by decide)
      (by decide)).1, by decide⟩

/-- Claim C10: `pngle_decoder_close` is idempotent — it releases the pixel
buffer only when `img_data` is non-null and then nulls the field, so a
second close performs no release and leaves the descriptor exactly as the
first close left it (with `img_data` null). -/
theorem C10_close_idempotent (dsc : CloseDsc) :
    (pngle_decoder_close (pngle_decoder_close dsc).1).1 = (pngle_decoder_close dsc).1 ∧
    (pngle_decoder_close (pngle_decoder_close dsc).1).2 = 0 ∧
    (pngle_decoder_close dsc).2 + (pngle_decoder_close (pngle_decoder_close dsc).1).2 ≤ 1 ∧
    (pngle_decoder_close dsc).1.imgData = none := by
  obtain ⟨v⟩ := dsc
  cases v <;> simp [pngle_decoder_close]

/-- Claim C5 fails on the code: opening a FILE source whose path does not
end in `png` (here `a.bmp`) skips every decode step, leaves the `failed`
flag false, assigns `dsc->img_data = NULL` and returns `LV_RES_OK` — a
success that delivers no buffer.  (The claim's residual part holds: a
source of neither File nor MemoryBuffer type is rejected.) -/
theorem C5_nonpng_file_reports_success_without_buffer :
    pngle_decoder_open M0 Depth.d32 true junk0 true () 0
        (ImgSrc.file ['a', '.', 'b', 'm', 'p'] (some [])) =
      some ⟨LvRes.ok, some none, [], none⟩ ∧
    pngle_decoder_open M0 Depth.d32 true junk0 true () 0 ImgSrc.other =
      some ⟨LvRes.inv, none, [], none⟩ := by
  exact ⟨rfl, rfl⟩

/-- Claim C6 fails on the code: `read_next_chunk` never inspects the
bytes-actually-read count, so on a source that is already at end-of-stream
(zero bytes remaining) it reads nothing (`f.pos` stays 0), computes the
chunk length from the uninitialized buffer (here zeros, giving 0 + 4),
feeds 8 + 4 junk bytes to the parser, and returns `LV_RES_OK` — no I/O
failure exists anywhere in the code. -/
theorem C6_exhausted_source_not_an_io_failure :
    (read_next_chunk M0 Depth.d32 true openRegs junk0 () udStack0 ⟨[], 0⟩).exit =
      RncExit.ok ∧
    (read_next_chunk M0 Depth.d32 true openRegs junk0 () udStack0 ⟨[], 0⟩).feeds =
      [8, 4] ∧
    (read_next_chunk M0 Depth.d32 true openRegs junk0 () udStack0 ⟨[], 0⟩).f.pos = 0 := by
  exact ⟨rfl, rfl, rfl⟩

/-- Counterexample to claim C2 as stated: for the length field
`80 00 00 00` the big-endian value plus 4 is 0x80000004 (non-negative, so
per the claim the chunk would be read), but the `int` computation
overflows to a negative value under either `char` signedness and
`read_next_chunk` returns the malformed-chunk failure. -/
theorem C2_counterexample :
    chunkLenInt true 0x80 0 0 0 ≠ (beU32 0x80 0 0 0 : Int) + 4 ∧
    chunkLenInt false 0x80 0 0 0 ≠ (beU32 0x80 0 0 0 : Int) + 4 ∧
    chunkLenInt true 0x80 0 0 0 < 0 ∧
    chunkLenInt false 0x80 0 0 0 < 0 ∧
    0 ≤ (beU32 0x80 0 0 0 : Int) + 4 ∧
    (read_next_chunk M0 Depth.d32 true openRegs junk0 () udStack0
        ⟨[0x80, 0, 0, 0, 0x49, 0x48, 0x44, 0x52], 0⟩).exit = RncExit.negLen := by
  refine ⟨by decide, by decide, by decide, by decide, by decide, rfl⟩

/-- Claim C2, amended: `chunk_length` is computed by 32-bit `int`
arithmetic on (promotion-dependent) `char` values, so it equals the
big-endian length plus 4 (and is non-negative) whenever all four length
bytes are below 0x80 — not for every length field; the malformed-chunk
failure is returned exactly when the computed value is negative; the call
fails whenever a feed call reports an error — a rejected header feed
fails, and so does a rejected feed of any data burst after a clean run up
to it; and against a parser that accepts every feed the call succeeds,
feeding the 8-byte header and then exactly `chunk_length` further bytes
in positive bursts of at most 1024 bytes. -/
theorem C2_chunk_reader_amended :
    (∀ (sgn : Bool) (b0 b1 b2 b3 : Nat), b0 < 128 → b1 < 128 → b2 < 128 → b3 < 128 →
      chunkLenInt sgn b0 b1 b2 b3 = (beU32 b0 b1 b2 b3 : Int) + 4 ∧
      0 ≤ chunkLenInt sgn b0 b1 b2 b3) ∧
    (∀ (σ : Type) (M : Pngle σ) (d : Depth) (sgn : Bool) (regs : CbRegs)
      (junk : Nat → Nat) (p : σ) (ud : UD) (f : LvFile),
      ((read_next_chunk M d sgn regs junk p ud f).exit = RncExit.negLen ↔
        (read_next_chunk M d sgn regs junk p ud f).clen < 0)) ∧
    (∀ (σ : Type) (M : Pngle σ) (d : Depth) (sgn : Bool) (regs : CbRegs)
      (junk : Nat → Nat) (p : σ) (ud : UD) (f : LvFile),
      ¬ (read_next_chunk M d sgn regs junk p ud f).clen < 0 →
      (pngleFeed M d regs p ud (lv_fs_read f 8 junk).1).2.2 < 0 →
      (read_next_chunk M d sgn regs junk p ud f).exit = RncExit.headerFeedErr) ∧
    (∀ (σ : Type) (M : Pngle σ) (d : Depth) (sgn : Bool) (regs : CbRegs)
      (junk : Nat → Nat) (p : σ) (ud : UD) (f : LvFile) (l1 : List Nat)
      (btr : Nat) (rest : List Nat),
      ¬ (read_next_chunk M d sgn regs junk p ud f).clen < 0 →
      ¬ (pngleFeed M d regs p ud (lv_fs_read f 8 junk).1).2.2 < 0 →
      burstSizes (read_next_chunk M d sgn regs junk p ud f).clen.toNat =
        l1 ++ btr :: rest →
      (feedBursts M d regs junk l1
          (pngleFeed M d regs p ud (lv_fs_read f 8 junk).1).1
          (pngleFeed M d regs p ud (lv_fs_read f 8 junk).1).2.1
          (lv_fs_read f 8 junk).2 []).1 = RncExit.ok →
      (pngleFeed M d regs
          (feedBursts M d regs junk l1
            (pngleFeed M d regs p ud (lv_fs_read f 8 junk).1).1
            (pngleFeed M d regs p ud (lv_fs_read f 8 junk).1).2.1
            (lv_fs_read f 8 junk).2 []).2.1
          (feedBursts M d regs junk l1
            (pngleFeed M d regs p ud (lv_fs_read f 8 junk).1).1
            (pngleFeed M d regs p ud (lv_fs_read f 8 junk).1).2.1
            (lv_fs_read f 8 junk).2 []).2.2.1
          (lv_fs_read (feedBursts M d regs junk l1
            (pngleFeed M d regs p ud (lv_fs_read f 8 junk).1).1
            (pngleFeed M d regs p ud (lv_fs_read f 8 junk).1).2.1
            (lv_fs_read f 8 junk).2 []).2.2.2.1 btr junk).1).2.2 < 0 →
      (read_next_chunk M d sgn regs junk p ud f).exit = RncExit.dataFeedErr) ∧
    (∀ (σ : Type) (M : Pngle σ) (d : Depth) (sgn : Bool) (regs : CbRegs)
      (junk : Nat → Nat) (p : σ) (ud : UD) (f : LvFile),
      (∀ q bs, 0 ≤ (M.feed q bs).2.1) →
      ¬ (read_next_chunk M d sgn regs junk p ud f).clen < 0 →
      (read_next_chunk M d sgn regs junk p ud f).exit = RncExit.ok ∧
      (read_next_chunk M d sgn regs junk p ud f).feeds =
        8 :: burstSizes (read_next_chunk M d sgn regs junk p ud f).clen.toNat) ∧
    (∀ n : Nat, (burstSizes n).sum = n ∧ ∀ x ∈ burstSizes n, 0 < x ∧ x ≤ 1024) := by
  refine ⟨chunkLen_small, ?_, ?_, ?_, ?_, burstSizes_spec⟩
  · intro σ M d sgn regs junk p ud f
    exact rnc_negLen_iff M d sgn regs junk p ud f
  · intro σ M d sgn regs junk p ud f hc hf
    exact rnc_header_reject M d sgn regs junk p ud f hc hf
  · intro σ M d sgn regs junk p ud f l1 btr rest hc hhdr hdec hok hrej
    exact rnc_burst_reject M d sgn regs junk p ud f l1 btr rest hc hhdr hdec hok hrej
  · intro σ M d sgn regs junk p ud f hM hc
    exact rnc_accepting M d sgn regs junk p ud f hM hc

/-- Witness for the amended C2: a length field `00 00 00 02` gives
`chunk_length` 6 = 2 + 4 and a successful chunked feed against an
all-accepting parser, while against a parser that accepts the header
feed and rejects the first data-burst feed the same chunk fails. -/
theorem C2_chunk_reader_amended_witness :
    chunkLenInt true 0 0 0 2 = (beU32 0 0 0 2 : Int) + 4 ∧
    (read_next_chunk M0 Depth.d32 true openRegs junk0 () udStack0
        ⟨[0, 0, 0, 2, 0x49, 0x48, 0x44, 0x52, 1, 2, 3, 4, 5, 6], 0⟩).exit =
      RncExit.ok ∧
    (read_next_chunk M0 Depth.d32 true openRegs junk0 () udStack0
        ⟨[0, 0, 0, 2, 0x49, 0x48, 0x44, 0x52, 1, 2, 3, 4, 5, 6], 0⟩).feeds =
      [8, 6] ∧
    (read_next_chunk M9 Depth.d32 true openRegs junk0 0 udStack0
        ⟨[0, 0, 0, 2, 0x49, 0x48, 0x44, 0x52, 1, 2, 3, 4, 5, 6], 0⟩).exit =
      RncExit.dataFeedErr :=
  ⟨(C2_chunk_reader_amended.1 true 0 0 0 2 (by decide) (by decide) (by decide)
      (by decide)).1,
   (C2_chunk_reader_amended.2.2.2.2.1 Unit M0 Depth.d32 true openRegs junk0 ()
      udStack0 ⟨[0, 0, 0, 2, 0x49, 0x48, 0x44, 0x52, 1, 2, 3, 4, 5, 6], 0⟩
      (fun _ _ => Int.le_refl 0) (by decide)).1,
   (C2_chunk_reader_amended.2.2.2.2.1 Unit M0 Depth.d32 true openRegs junk0 ()
      udStack0 ⟨[0, 0, 0, 2, 0x49, 0x48, 0x44, 0x52, 1, 2, 3, 4, 5, 6], 0⟩
      (fun _ _ => Int.le_refl 0) (by decide)).2.trans (by decide),
   C2_chunk_reader_amended.2.2.2.1 Nat M9 Depth.d32 true openRegs junk0 0
      udStack0 ⟨[0, 0, 0, 2, 0x49, 0x48, 0x44, 0x52, 1, 2, 3, 4, 5, 6], 0⟩
      [] 6 [] (by decide) (by decide) (by decide) rfl (by decide)⟩

/-- The allocation has `n_px * bytes_per_pixel` bytes. -/
theorem lv_pngle_buffer_init_length (d : Depth) (n : Nat) :
    (lv_pngle_buffer_init d n).length = n * bytes_per_pixel d := by
  cases d <;> simp [lv_pngle_buffer_init, bytes_per_pixel]

/-- The tail `openFinish` reports the allocation record it was given. -/
theorem openFinish_allocs (failed : Bool) (ud : UD) (allocs : List Nat) :
    (openFinish failed ud allocs).allocs = allocs := by
  cases failed <;> simp [openFinish]

/-- The failure tail assigns nothing to `dsc->img_data`. -/
theorem openFinish_true_imgAssign (ud : UD) (allocs : List Nat) :
    (openFinish true ud allocs).imgAssign = none := by
  simp [openFinish]

/-- The success tail assigns the current `ud.data` pointer. -/
theorem openFinish_false_imgAssign (ud : UD) (allocs : List Nat) :
    (openFinish false ud allocs).imgAssign =
      some (ud.base.map fun l => (l, ud.off)) := by
  simp [openFinish]

/-- Claim C3: the output buffer is allocated at most once per decode,
zero-initialized, and sized `n_px` times `bytes_per_pixel` with
`bytes_per_pixel` 4/3/2/2 for the 32/16/8/1-bit formats — the same count
of bytes the pixel packer stores and advances the write pointer by; and
whenever the open operation succeeds and hands over a buffer, that buffer
went through exactly one allocation of `n` pixels and holds
`n * bytes_per_pixel` bytes. -/
theorem C3_buffer_sizing :
    (∀ (d : Depth) (n : Nat),
      lv_pngle_buffer_init d n = List.replicate (n * bytes_per_pixel d) 0) ∧
    (∀ (d : Depth) (r g b a : Nat),
      (packPixel d r g b a).length = bytes_per_pixel d) ∧
    (∀ (d : Depth) (r g b a : Nat) (ud : UD),
      (pngle_draw_cb d r g b a ud).off = ud.off + (bytes_per_pixel d : Nat)) ∧
    (∀ (σ : Type) (M : Pngle σ) (d : Depth) (sgn : Bool) (junk : Nat → Nat)
      (nOk : Bool) (p0 : σ) (fuel : Nat) (src : ImgSrc) (out : OpenOut),
      pngle_decoder_open M d sgn junk nOk p0 fuel src = some out →
      out.allocs.length ≤ 1 ∧
      (∀ buf off, out.imgAssign = some (some (buf, off)) →
        ∃ n, out.allocs = [n] ∧ buf.length = n * bytes_per_pixel d)) := by
  refine ⟨?_, packPixel_length, ?_, ?_⟩
  · intro d n
    cases d <;> simp [lv_pngle_buffer_init, bytes_per_pixel, Nat.mul_comm]
  · intro d r g b a ud
    simp [pngle_draw_cb, packPixel_length]
  · intro σ M d sgn junk nOk p0 fuel src out hrun
    cases src with
    | other =>
      simp only [pngle_decoder_open] at hrun
      cases hrun
      exact ⟨by simp, by intro buf off h; simp at h⟩
    | file name contents =>
      simp only [pngle_decoder_open] at hrun
      cases nOk with
      | false =>
        simp only [Bool.false_eq_true, if_false] at hrun
        cases hrun
        exact ⟨by simp, by intro buf off h; simp at h⟩
      | true =>
        simp only [if_true] at hrun
        by_cases hs : suffixIsPng name
        · rw [if_pos hs] at hrun
          cases contents with
          | none =>
            cases hrun
            refine ⟨by simp [openFinish_allocs], ?_⟩
            intro buf off h
            rw [openFinish_true_imgAssign] at h
            simp at h
          | some bytes =>
            rcases hh : get_pngle_header M d sgn openRegs junk fuel
                ⟨p0, udHeap0, ⟨bytes, 0⟩⟩ with _ | ⟨hb, st⟩
            · simp only [hh] at hrun
              exact Option.noConfusion hrun
            · cases hb with
              | false =>
                simp only [hh] at hrun
                cases hrun
                refine ⟨by simp [openFinish_allocs], ?_⟩
                intro buf off h
                rw [openFinish_true_imgAssign] at h
                simp at h
              | true =>
                rcases hd2 : get_pngle_data M d sgn openRegs junk fuel
                    ⟨st.ps, { udStack0 with
                      base := some (lv_pngle_buffer_init d
                        (M.width st.ps * M.height st.ps)) }, st.f⟩ with _ | ⟨hb2, st2⟩
                · simp only [hh, hd2] at hrun
                  exact Option.noConfusion hrun
                · cases hb2 with
                  | false =>
                    simp only [hh, hd2] at hrun
                    cases hrun
                    refine ⟨by simp [openFinish_allocs], ?_⟩
                    intro buf off h
                    rw [openFinish_true_imgAssign] at h
                    simp at h
                  | true =>
                    simp only [hh, hd2] at hrun
                    cases hrun
                    refine ⟨by simp [openFinish_allocs], ?_⟩
                    intro buf off h
                    rw [openFinish_false_imgAssign] at h
                    have hbase : st2.ud.base = some buf := by
                      rcases hx : st2.ud.base with _ | l
                      · rw [hx] at h; simp at h
                      · rw [hx] at h
                        simp at h
                        rw [h.1]
                    have hlen := get_pngle_data_baseLen M d sgn openRegs junk
                      fuel _ _ _ hd2
                    simp [baseLen, hbase] at hlen
                    refine ⟨M.width st.ps * M.height st.ps,
                      by rw [openFinish_allocs], ?_⟩
                    rw [hlen]
                    exact lv_pngle_buffer_init_length d _
        · rw [if_neg hs] at hrun
          cases hrun
          refine ⟨by simp [openFinish_allocs], ?_⟩
          intro buf off h
          rw [openFinish_false_imgAssign] at h
          simp [udStack0] at h
    | varBuf img =>
      simp only [pngle_decoder_open] at hrun
      cases nOk with
      | false =>
        simp only [Bool.false_eq_true, if_false] at hrun
        cases hrun
        exact ⟨by simp, by intro buf off h; simp at h⟩
      | true =>
        simp only [if_true] at hrun
        rcases hm : memLoop M d openRegs junk img.data fuel p0
            { udStack0 with
              base := some (lv_pngle_buffer_init d (img.w * img.h)) } 0
          with _ | ⟨failed, p2, ud2⟩
        · simp only [hm] at hrun
          exact Option.noConfusion hrun
        · cases failed with
          | true =>
            simp only [hm] at hrun
            cases hrun
            refine ⟨by simp [openFinish_allocs], ?_⟩
            intro buf off h
            rw [openFinish_true_imgAssign] at h
            simp at h
          | false =>
            simp only [hm] at hrun
            cases hrun
            refine ⟨by simp [openFinish_allocs], ?_⟩
            intro buf off h
            rw [openFinish_false_imgAssign] at h
            have hbase : ud2.base = some buf := by
              rcases hx : ud2.base with _ | l
              · rw [hx] at h; simp at h
              · rw [hx] at h
                simp at h
                rw [h.1]
            have hlen := memLoop_baseLen M d openRegs junk img.data fuel _ _ _ _ _ _ hm
            simp [baseLen, hbase] at hlen
            refine ⟨img.w * img.h, by rw [openFinish_allocs], ?_⟩
            rw [hlen]
            exact lv_pngle_buffer_init_length d _

/-- Witness for C3: a successful in-memory decode of a 1-by-1 image in the
32-bit format hands over a 4-byte buffer from its single allocation. -/
theorem C3_buffer_sizing_witness :
    ∃ n, ({ res := LvRes.ok,
            imgAssign := some (some (List.replicate 4 0, (-4 : Int))),
            allocs := [1], freedOff := none } : OpenOut).allocs = [n] ∧
      (List.replicate 4 (0 : Nat)).length = n * bytes_per_pixel Depth.d32 :=
  (C3_buffer_sizing.2.2.2 Unit M3w Depth.d32 true junk0 true () 3
      (ImgSrc.varBuf img3w) _ (by decide)).2 (List.replicate 4 0) (-4) rfl

/-- Each decoded pixel advances the write pointer by `bytes_per_pixel`,
so a raster pass over a pixel list advances it by
`bytes_per_pixel * length`. -/
theorem foldl_draw_off (d : Depth) (pixels : List (Nat × Nat × Nat × Nat)) :
    ∀ ud : UD,
    (pixels.foldl (fun u q => pngle_draw_cb d q.1 q.2.1 q.2.2.1 q.2.2.2 u) ud).off =
      ud.off + (bytes_per_pixel d * pixels.length : Nat) := by
  induction pixels with
  | nil => intro ud; simp
  | cons q rest ih =>
    intro ud
    rw [List.foldl_cons, ih]
    simp only [pngle_draw_cb, packPixel_length, List.length_cons]
    push_cast
    ring

/-- Claim C4: the completion callback sets `data_ready` and moves the
write pointer back by exactly `bytes_per_pixel * width * height` bytes
(touching nothing else), so after a full decode that wrote `w * h` pixels
in raster order starting from the buffer start, the pointer is back at
the start. -/
theorem C4_done_rewind :
    (∀ (d : Depth) (w h : Nat) (ud : UD),
      (pngle_done_cb d w h ud).dataReady = true ∧
      (pngle_done_cb d w h ud).off = ud.off - (bytes_per_pixel d * w * h : Nat) ∧
      (pngle_done_cb d w h ud).base = ud.base ∧
      (pngle_done_cb d w h ud).hdrReady = ud.hdrReady) ∧
    (∀ (d : Depth) (w h : Nat) (ud0 : UD) (pixels : List (Nat × Nat × Nat × Nat)),
      ud0.off = 0 → pixels.length = w * h →
      (pngle_done_cb d w h (pixels.foldl
        (fun u q => pngle_draw_cb d q.1 q.2.1 q.2.2.1 q.2.2.2 u) ud0)).off = 0) := by
  constructor
  · intro d w h ud
    cases d <;>
      refine ⟨rfl, ?_, rfl, rfl⟩ <;>
      simp only [pngle_done_cb, bytes_per_pixel]
  · intro d w h ud0 pixels h0 hlen
    have hoff := foldl_draw_off d pixels ud0
    rw [h0, hlen] at hoff
    cases d <;>
      simp only [pngle_done_cb, bytes_per_pixel] at hoff ⊢ <;>
      rw [hoff] <;> push_cast <;> ring

/-- Witness for C4: a 2-by-1 decode in the 16-bit format ends with the
write pointer back at offset 0. -/
theorem C4_done_rewind_witness :
    (pngle_done_cb Depth.d16 2 1
      (([(1, 2, 3, 4), (5, 6, 7, 8)] : List (Nat × Nat × Nat × Nat)).foldl
        (fun u q => pngle_draw_cb Depth.d16 q.1 q.2.1 q.2.2.1 q.2.2.2 u)
        ⟨false, false, some (List.replicate 6 0), 0⟩)).off = 0 :=
  C4_done_rewind.2 Depth.d16 2 1 ⟨false, false, some (List.replicate 6 0), 0⟩
    [(1, 2, 3, 4), (5, 6, 7, 8)] rfl rfl

/-- Against the oracle `M0` (which accepts every feed and never fires a
callback) the in-memory feed loop never terminates, whatever the fuel:
the code has no end-of-stream check, so only a parser error or the
completion flag can stop it. -/
theorem memLoop_M0_none (d : Depth) (regs : CbRegs) (junk : Nat → Nat)
    (data : List Nat) : ∀ (fuel : Nat) (ud : UD) (pos : Nat),
    ud.dataReady = false →
    memLoop M0 d regs junk data fuel () ud pos = none := by
  intro fuel
  induction fuel with
  | zero =>
    intro ud pos hd
    simp [memLoop, hd]
  | succ fuel ih =>
    intro ud pos hd
    simp only [memLoop, hd, Bool.false_eq_true, if_false]
    have hfeed : (pngleFeed M0 d regs () ud
        (memRead data pos (min data.length 1024) junk)) = ((), ud, 0) := rfl
    rw [hfeed]
    simp only [show ¬((0 : Int) < 0) from by omega, if_false]
    exact ih ud _ hd

/-- Claim C7 fails on the code: for an in-memory source holding just the
8 signature bytes and a parser that accepts every feed without ever
signalling completion, the open operation's feed loop runs forever — for
every fuel bound the decode is still looping, having walked `pos` past
the end of the source without any end-of-stream check. -/
theorem C7_memory_loop_divergence :
    ∀ fuel : Nat,
      pngle_decoder_open M0 Depth.d32 true junk0 true () fuel
        (ImgSrc.varBuf img9) = none := by
  intro fuel
  simp only [pngle_decoder_open, if_true]
  rw [memLoop_M0_none Depth.d32 openRegs junk0 img9.data fuel _ 0 rfl]

/-- Claim C8: for an in-memory source the info operation returns failure
exactly when the first 8 bytes differ from the PNG signature magic; on a
match it succeeds with width, height and colour format copied from the
descriptor; and the result does not depend on the parser oracle, its
state, or any fuel — no re-parsing takes place (and the branch performs
no allocation: its result carries no buffer). -/
theorem C8_info_memory (σ1 σ2 : Type) (M : Pngle σ1) (M2 : Pngle σ2)
    (d d2 : Depth) (sgn sgn2 : Bool) (junk junk2 : Nat → Nat)
    (nOk nOk2 : Bool) (p0 : σ1) (q0 : σ2) (fuel fuel2 : Nat) (img : ImgDsc)
    (h8 : 8 ≤ img.data.length) :
    pngle_decoder_info M d sgn junk nOk p0 fuel (ImgSrc.varBuf img) =
      pngle_decoder_info M2 d2 sgn2 junk2 nOk2 q0 fuel2 (ImgSrc.varBuf img) ∧
    (pngle_decoder_info M d sgn junk nOk p0 fuel (ImgSrc.varBuf img) =
        some (LvRes.inv, none) ↔ img.data.take 8 ≠ pngMagic) ∧
    (img.data.take 8 = pngMagic →
      pngle_decoder_info M d sgn junk nOk p0 fuel (ImgSrc.varBuf img) =
        some (LvRes.ok, some ⟨img.cf, img.w, img.h⟩)) := by
  refine ⟨rfl, ?_, ?_⟩
  · simp only [pngle_decoder_info]
    by_cases h : img.data.take 8 = pngMagic
    · rw [if_pos h]
      simp [h]
    · rw [if_neg h]
      simp [h]
  · intro h
    simp only [pngle_decoder_info]
    rw [if_pos h]

/-- Witness for C8 at a descriptor whose data starts with the magic. -/
theorem C8_info_memory_witness :
    pngle_decoder_info M0 Depth.d32 true junk0 true () 0 (ImgSrc.varBuf img8w) =
      some (LvRes.ok, some ⟨7, 3, 5⟩) :=
  (C8_info_memory Unit Unit M0 M0 Depth.d32 Depth.d32 true true junk0 junk0
    true true () () 0 0 img8w (by decide)).2.2 (by decide)

/-- The failure tail reports `LV_RES_INV`. -/
theorem openFinish_true_res (ud : UD) (allocs : List Nat) :
    (openFinish true ud allocs).res = LvRes.inv := by
  simp [openFinish]

/-- The success tail reports `LV_RES_OK`. -/
theorem openFinish_false_res (ud : UD) (allocs : List Nat) :
    (openFinish false ud allocs).res = LvRes.ok := by
  simp [openFinish]

/-- The failure tail frees the current `ud.data` pointer when non-null. -/
theorem openFinish_true_freedOff (ud : UD) (allocs : List Nat) :
    (openFinish true ud allocs).freedOff = ud.base.map fun _ => ud.off := by
  simp [openFinish]

/-- On every failing open, nothing is assigned to `dsc->img_data`, and
when a buffer was allocated a `free` call is made (on the pointer's
current position). -/
theorem open_failure_cleanup (σ : Type) (M : Pngle σ) (d : Depth) (sgn : Bool)
    (junk : Nat → Nat) (nOk : Bool) (p0 : σ) (fuel : Nat) (src : ImgSrc)
    (out : OpenOut)
    (hrun : pngle_decoder_open M d sgn junk nOk p0 fuel src = some out)
    (hres : out.res = LvRes.inv) :
    out.imgAssign = none ∧ (out.allocs ≠ [] → out.freedOff ≠ none) := by
  cases src with
  | other =>
    simp only [pngle_decoder_open] at hrun
    cases hrun
    exact ⟨rfl, by intro h; simp at h⟩
  | file name contents =>
    simp only [pngle_decoder_open] at hrun
    cases nOk with
    | false =>
      simp only [Bool.false_eq_true, if_false] at hrun
      cases hrun
      exact ⟨rfl, by intro h; simp at h⟩
    | true =>
      simp only [if_true] at hrun
      by_cases hs : suffixIsPng name
      · rw [if_pos hs] at hrun
        cases contents with
        | none =>
          cases hrun
          exact ⟨openFinish_true_imgAssign _ _, by intro h; simp [openFinish_allocs] at h⟩
        | some bytes =>
          rcases hh : get_pngle_header M d sgn openRegs junk fuel
              ⟨p0, udHeap0, ⟨bytes, 0⟩⟩ with _ | ⟨hb, st⟩
          · simp only [hh] at hrun
            exact Option.noConfusion hrun
          · cases hb with
            | false =>
              simp only [hh] at hrun
              cases hrun
              exact ⟨openFinish_true_imgAssign _ _,
                by intro h; simp [openFinish_allocs] at h⟩
            | true =>
              rcases hd2 : get_pngle_data M d sgn openRegs junk fuel
                  ⟨st.ps, { udStack0 with
                    base := some (lv_pngle_buffer_init d
                      (M.width st.ps * M.height st.ps)) }, st.f⟩ with _ | ⟨hb2, st2⟩
              · simp only [hh, hd2] at hrun
                exact Option.noConfusion hrun
              · cases hb2 with
                | false =>
                  simp only [hh, hd2] at hrun
                  cases hrun
                  refine ⟨openFinish_true_imgAssign _ _, ?_⟩
                  intro _
                  rw [openFinish_true_freedOff]
                  have hlen := get_pngle_data_baseLen M d sgn openRegs junk
                    fuel _ _ _ hd2
                  rcases hx : st2.ud.base with _ | l
                  · simp [baseLen, hx] at hlen
                  · simp
                | true =>
                  simp only [hh, hd2] at hrun
                  cases hrun
                  rw [openFinish_false_res] at hres
                  exact LvRes.noConfusion hres
      · rw [if_neg hs] at hrun
        cases hrun
        rw [openFinish_false_res] at hres
        exact LvRes.noConfusion hres
  | varBuf img =>
    simp only [pngle_decoder_open] at hrun
    cases nOk with
    | false =>
      simp only [Bool.false_eq_true, if_false] at hrun
      cases hrun
      exact ⟨rfl, by intro h; simp at h⟩
    | true =>
      simp only [if_true] at hrun
      rcases hm : memLoop M d openRegs junk img.data fuel p0
          { udStack0 with
            base := some (lv_pngle_buffer_init d (img.w * img.h)) } 0
        with _ | ⟨failed, p2, ud2⟩
      · simp only [hm] at hrun
        exact Option.noConfusion hrun
      · cases failed with
        | true =>
          simp only [hm] at hrun
          cases hrun
          refine ⟨openFinish_true_imgAssign _ _, ?_⟩
          intro _
          rw [openFinish_true_freedOff]
          have hlen := memLoop_baseLen M d openRegs junk img.data fuel _ _ _ _ _ _ hm
          rcases hx : ud2.base with _ | l
          · simp [baseLen, hx] at hlen
          · simp
        | false =>
          simp only [hm] at hrun
          cases hrun
          rw [openFinish_false_res] at hres
          exact LvRes.noConfusion hres

/-- Claim C9 fails on the code in one respect: on a failure after pixels
have been written, the `free` is applied to the advanced write pointer —
here 4 bytes past the allocation start (an interior pointer, not a
release of the buffer) — though it is true that no ownership is ever
transferred on failure (`dsc->img_data` is left unassigned) and that a
`free` call is always attempted when a buffer exists. -/
theorem C9_interior_pointer_free :
    (pngle_decoder_open M9 Depth.d32 true junk0 true 0 5 (ImgSrc.varBuf img9) =
      some ⟨LvRes.inv, none, [2], some 4⟩ ∧ (4 : Int) ≠ 0) ∧
    (∀ (σ : Type) (M : Pngle σ) (d : Depth) (sgn : Bool) (junk : Nat → Nat)
      (nOk : Bool) (p0 : σ) (fuel : Nat) (src : ImgSrc) (out : OpenOut),
      pngle_decoder_open M d sgn junk nOk p0 fuel src = some out →
      out.res = LvRes.inv →
      out.imgAssign = none ∧ (out.allocs ≠ [] → out.freedOff ≠ none)) :=
  ⟨⟨rfl, by decide⟩, open_failure_cleanup⟩

/-- Witness for C9's general part at the concrete failing run. -/
theorem C9_interior_pointer_free_witness :
    ((⟨LvRes.inv, none, [2], some 4⟩ : OpenOut).imgAssign = none) ∧
    ((⟨LvRes.inv, none, [2], some 4⟩ : OpenOut).allocs ≠ [] →
      (⟨LvRes.inv, none, [2], some 4⟩ : OpenOut).freedOff ≠ none) :=
  C9_interior_pointer_free.2 Nat M9 Depth.d32 true junk0 true 0 5
    (ImgSrc.varBuf img9) _ rfl rfl

end LvPngle
